import Mathlib

/-!
Shallow embedding of the day-data computation engine of the calendar app
(`src/src/components/Calendar.tsx`) and proofs of the specification claims
about it.

Modelling conventions:
* A calendar date is represented by its rata-die number (`Nat`): day 1 is
  0001-01-01 of the proleptic Gregorian calendar.  JavaScript `Date` values in
  the source always denote local midnight of a civil date, so this captures
  them exactly; `Date.prototype.getDay` (0 = Sunday) becomes `getDay`
  (rata die 1 is a Monday, hence `getDay n = n % 7`).
* `format(date, 'yyyy-MM-dd')` becomes `formatDay`, and the string comparison
  operators of JavaScript (code-unit lexicographic) become `strLt` / `strLe`
  on `String.data`.
* The lunar/holiday library (`Solar`, `HolidayUtil` from lunar-javascript) is
  an external collaborator; it enters as an opaque-oracle argument: a
  `provider : Nat → Option Holiday` for `HolidayUtil.getHoliday` and a
  `lunarOracle : Nat → String × String` for the lunar-day / festival labels.
* JavaScript `Set` of date strings becomes `Finset String`; React state
  updates become pure state-passing functions.
* The two `while (true)` scans of `holidayProgress` are embedded with an
  explicit fuel parameter: the result `none` means the loop has not
  terminated within `fuel` iterations (for every fuel), `some r` means the
  source computation terminates with result `r`.
-/

set_option maxRecDepth 40000

namespace Calendar

/-! ## Gregorian calendar arithmetic (semantics of JS `Date`) -/

/-- Gregorian leap-year rule. -/
def isLeap (y : Nat) : Bool := (y % 4 == 0 && y % 100 != 0) || y % 400 == 0

/-- Lengths of the twelve months of a (leap or common) year. -/
def monthLengths (leap : Bool) : List Nat :=
  [31, if leap then 29 else 28, 31, 30, 31, 30, 31, 31, 30, 31, 30, 31]

/-- Number of days of month `m` (1-based) of year `y`. -/
def daysInMonth (y m : Nat) : Nat := (monthLengths (isLeap y)).getD (m - 1) 0

/-- Number of days of year `y`. -/
def daysInYear (y : Nat) : Nat := if isLeap y then 366 else 365

/-- Days strictly before January 1 of year `y` (counted from 0001-01-01). -/
def daysBeforeYear (y : Nat) : Nat :=
  (y - 1) * 365 + (y - 1) / 4 + (y - 1) / 400 - (y - 1) / 100

/-- Days of year `y` strictly before the first day of month `m` (1-based). -/
def daysBeforeMonth (y m : Nat) : Nat := ((monthLengths (isLeap y)).take (m - 1)).sum

/-- Rata-die number of the civil date `y-m-d`: 0001-01-01 is day 1. -/
def rataDie (y m d : Nat) : Nat := daysBeforeYear y + daysBeforeMonth y m + d

/-- Weekday in JavaScript `getDay` convention (0 = Sunday ... 6 = Saturday). -/
def getDay (n : Nat) : Nat := n % 7

/-- Find the year containing day-of-era `n`, starting the search at year `y`;
returns the year and the remaining 1-based day-of-year.  The first argument is
fuel for the recursion; every call site passes at least `n`, which is ample
since each step consumes at least 365 days. -/
def yearFromDay : Nat → Nat → Nat → Nat × Nat
  | 0, y, n => (y, n)
  | fuel + 1, y, n =>
    if daysInYear y < n then yearFromDay fuel (y + 1) (n - daysInYear y) else (y, n)

/-- Locate a 1-based day-of-year inside a list of month lengths; returns the
0-based month index and the 1-based day-of-month. -/
def splitMonths : List Nat → Nat → Nat × Nat
  | [], r => (0, r)
  | len :: rest, r =>
    if r ≤ len then (0, r)
    else
      let p := splitMonths rest (r - len)
      (p.1 + 1, p.2)

/-- Civil date `(year, month, day)` of a rata-die number (inverse of
`rataDie` on valid dates). -/
def civilFromRataDie (n : Nat) : Nat × Nat × Nat :=
  let p := yearFromDay n 1 n
  let q := splitMonths (monthLengths (isLeap p.1)) p.2
  (p.1, q.1 + 1, q.2)

/-- Day-of-month of a rata-die number (JS `Date.prototype.getDate`). -/
def getDate (n : Nat) : Nat := (civilFromRataDie n).2.2

/-- Semantics of the JS constructor `new Date(year, m, d)` with 0-based month
`m` (possibly 12, meaning January of the next year) and arbitrary day number
`d` (possibly ≤ 0 or past the month's end): the arguments are normalized by
plain day counting.  Result is the rata-die number of the denoted date. -/
def jsDate (year m : Nat) (d : Int) : Nat :=
  (((rataDie (year + m / 12) (m % 12 + 1) 1 : Nat) : Int) + d - 1).toNat

/-! ## Date strings -/

/-- Zero-pad a number to two digits (as in the `MM` / `dd` format fields). -/
def pad2 (n : Nat) : String := if n < 10 then "0" ++ toString n else toString n

/-- Zero-pad a number to four digits (as in the `yyyy` format field). -/
def pad4 (n : Nat) : String :=
  if n < 10 then "000" ++ toString n
  else if n < 100 then "00" ++ toString n
  else if n < 1000 then "0" ++ toString n
  else toString n

/-- Embedding of `format(date, 'yyyy-MM-dd')` from date-fns. -/
def formatDay (n : Nat) : String :=
  let c := civilFromRataDie n
  pad4 c.1 ++ "-" ++ pad2 c.2.1 ++ "-" ++ pad2 c.2.2

/-- Code-unit lexicographic comparison of character lists: the semantics of
the JavaScript `<` operator on strings (all strings in play are ASCII). -/
def strLtChars : List Char → List Char → Bool
  | [], [] => false
  | [], _ :: _ => true
  | _ :: _, [] => false
  | a :: as, b :: bs =>
    if a.toNat < b.toNat then true
    else if b.toNat < a.toNat then false
    else strLtChars as bs

/-- JavaScript string `<`. -/
def strLt (s t : String) : Bool := strLtChars s.data t.data

/-- JavaScript string `<=` (equivalently `¬ (t < s)`, the order being total). -/
def strLe (s t : String) : Bool := !(strLt t s)

/-- Numeric value of an ASCII digit character. -/
def digitVal (c : Char) : Nat := c.toNat - 48

/-- Semantics of `new Date(s + 'T00:00:00')` for a zero-padded `YYYY-MM-DD`
string `s`: local midnight of the denoted civil date, as its rata-die
number.  (The source only ever parses strings produced by `formatDay` or by a
date input control, which are always of this shape.) -/
def parseToRataDie (s : String) : Nat :=
  match s.data with
  | [y1, y2, y3, y4, _, m1, m2, _, d1, d2] =>
    rataDie (digitVal y1 * 1000 + digitVal y2 * 100 + digitVal y3 * 10 + digitVal y4)
      (digitVal m1 * 10 + digitVal m2)
      (digitVal d1 * 10 + digitVal d2)
  | _ => 0

/-! ## Data model (`Calendar.tsx` interfaces) -/

/-- Result of `HolidayUtil.getHoliday`: the built-in holiday record for a
date, with its display name and whether it is a compensatory workday. -/
structure Holiday where
  name : String
  isWork : Bool
deriving DecidableEq, Repr

/-- Interface `CustomHoliday` of the source: a user-created holiday range with
inclusive `YYYY-MM-DD` bounds. -/
structure CustomHoliday where
  id : String
  name : String
  start : String
  «end» : String
deriving DecidableEq, Repr

/-- Interface `BaseDayData` of the source: immutable per-date facts.  The
`date` field is the rata-die number of the JS `Date` object. -/
structure BaseDayData where
  date : Nat
  dateStr : String
  isCurrentMonth : Bool
  lunarDay : String
  festival : String
  isBuiltInHoliday : Bool
  isBuiltInWork : Bool
  builtInHolidayName : String
deriving DecidableEq, Repr

/-- Interface `DayData` of the source: the merged, render-ready day record. -/
structure DayData extends BaseDayData where
  isHoliday : Bool
  isWork : Bool
  holidayName : String
  isMarked : Bool
deriving DecidableEq, Repr

/-! ## Base Day Resolver (`getBaseDayData`, lines 34-76) -/

/-- Embedding of `getBaseDayData`.  The lunar-day and festival labels and the
built-in holiday lookup are outputs of the external lunar-javascript
collaborator and enter as arguments (`lunarDay`, `festival`, `holiday`); the
memoization cache is semantically transparent (same key, same value) and is
not modelled. -/
def getBaseDayData (date : Nat) (isCurrentMonth : Bool) (lunarDay festival : String)
    (holiday : Option Holiday) : BaseDayData :=
  { date := date
    dateStr := formatDay date
    isCurrentMonth := isCurrentMonth
    lunarDay := lunarDay
    festival := festival
    isBuiltInHoliday := match holiday with | some h => !h.isWork | none => false
    isBuiltInWork := match holiday with | some h => h.isWork | none => false
    builtInHolidayName := match holiday with | some h => h.name | none => "" }

/-! ## Day Merge Engine (`combineDayData`, lines 78-99) -/

/-- The containment test `base.dateStr >= ch.start && base.dateStr <= ch.end`
of the source, with JS string comparison. -/
def inRange (ch : CustomHoliday) (dateStr : String) : Bool :=
  strLe ch.start dateStr && strLe dateStr ch.«end»

/-- Embedding of `combineDayData`: the source's for-loop with `break` is the
first-match scan `List.find?`. -/
def combineDayData (base : BaseDayData) (customHolidays : List CustomHoliday)
    (markedDates : Finset String) : DayData :=
  match customHolidays.find? (fun ch => inRange ch base.dateStr) with
  | some ch =>
    { base with
      isHoliday := true
      isWork := false
      holidayName := ch.name
      isMarked := decide (base.dateStr ∈ markedDates) }
  | none =>
    { base with
      isHoliday := base.isBuiltInHoliday
      isWork := base.isBuiltInWork
      holidayName := base.builtInHolidayName
      isMarked := decide (base.dateStr ∈ markedDates) }

/-! ## Month Builder (`MonthView` days `useMemo`, lines 109-137) -/

/-- The Monday-first leading offset: `firstDayOfWeek === 0 ? 6 :
firstDayOfWeek - 1` for the weekday of day 1 of 0-based month `m`. -/
def startOffsetOf (year m : Nat) : Nat :=
  let firstDayOfWeek := getDay (jsDate year m 1)
  if firstDayOfWeek == 0 then 6 else firstDayOfWeek - 1

/-- The 42 grid cells of the month view, as (rata-die date, isCurrentMonth)
pairs, in emission order: leading days of the previous month, every day of
the target month, trailing days of the next month. -/
def monthCells (year m : Nat) : List (Nat × Bool) :=
  let lastDay := jsDate year (m + 1) 0
  let startOffset := startOffsetOf year m
  let leading := (List.range startOffset).map
    (fun k => (jsDate year m (1 - ((startOffset - k : Nat) : Int)), false))
  let current := (List.range (getDate lastDay)).map
    (fun k : Nat => (jsDate year m ((k : Int) + 1), true))
  let remainingDays := 42 - (leading ++ current).length
  let trailing := (List.range remainingDays).map
    (fun k : Nat => (jsDate year (m + 1) ((k : Int) + 1), false))
  leading ++ current ++ trailing

/-- The `days` array of `MonthView`: every grid cell resolved through the
Base Day Resolver and the Day Merge Engine.  `lunarOracle` supplies the
lunar-day and festival labels of the external provider. -/
def monthView (year m : Nat) (lunarOracle : Nat → String × String)
    (provider : Nat → Option Holiday) (customHolidays : List CustomHoliday)
    (markedDates : Finset String) : List DayData :=
  (monthCells year m).map (fun c =>
    combineDayData
      (getBaseDayData c.1 c.2 (lunarOracle c.1).1 (lunarOracle c.1).2 (provider c.1))
      customHolidays markedDates)

/-! ## Contiguity and block layout (`MonthView` render, lines 149-159) -/

/-- The `prevDay` of cell `idx`: `idx > 0 ? days[idx - 1] : null`. -/
def prevDayAt (days : List DayData) (idx : Nat) : Option DayData :=
  if 0 < idx then days[idx - 1]? else none

/-- The `nextDay` of cell `idx`: `idx < days.length - 1 ? days[idx + 1] : null`. -/
def nextDayAt (days : List DayData) (idx : Nat) : Option DayData :=
  if idx < days.length - 1 then days[idx + 1]? else none

/-- The source's `isHolidayStart`: a holiday whose predecessor is absent, not
a holiday, or differently named. -/
def isHolidayStart (day : DayData) (prevDay : Option DayData) : Bool :=
  day.isHoliday &&
    (match prevDay with
     | none => true
     | some p => !p.isHoliday || p.holidayName != day.holidayName)

/-- The source's `isHolidayEnd`, symmetric with the successor. -/
def isHolidayEnd (day : DayData) (nextDay : Option DayData) : Bool :=
  day.isHoliday &&
    (match nextDay with
     | none => true
     | some nx => !nx.isHoliday || nx.holidayName != day.holidayName)

/-- Row boundary: `day.date.getDay() === 1` (Monday). -/
def isRowStart (day : DayData) : Bool := getDay day.date == 1

/-- Row boundary: `day.date.getDay() === 0` (Sunday). -/
def isRowEnd (day : DayData) : Bool := getDay day.date == 0

/-- The source's `blockStart` flag of cell `idx` holding `day`. -/
def blockStart (days : List DayData) (idx : Nat) (day : DayData) : Bool :=
  isHolidayStart day (prevDayAt days idx) || isRowStart day

/-- The source's `blockEnd` flag of cell `idx` holding `day`. -/
def blockEnd (days : List DayData) (idx : Nat) (day : DayData) : Bool :=
  isHolidayEnd day (nextDayAt days idx) || isRowEnd day

/-! ## Holiday Progress Calculator (`holidayProgress`, lines 307-353) -/

/-- The `holidayProgress` result record. -/
structure Progress where
  name : String
  current : Int
  remaining : Int
deriving DecidableEq, Repr

/-- Guard of the outward scans: the provider's record for day `d` exists, is
not a workday, and carries the scanned name (`ph && !ph.isWork() &&
ph.getName() === name`). -/
def sameHoliday (provider : Nat → Option Holiday) (name : String) (d : Nat) : Bool :=
  match provider d with
  | some ph => !ph.isWork && ph.name == name
  | none => false

/-- The backward `while (true)` scan of `holidayProgress`, with fuel:
`some s` means the source loop terminates with `startD = s`, `none` means it
is still running after `fuel` iterations. -/
def expandBack (provider : Nat → Option Holiday) (name : String) :
    Nat → Nat → Option Nat
  | 0, _ => none
  | fuel + 1, startD =>
    if sameHoliday provider name (startD - 1) then
      expandBack provider name fuel (startD - 1)
    else some startD

/-- The forward `while (true)` scan of `holidayProgress`, with fuel. -/
def expandFwd (provider : Nat → Option Holiday) (name : String) :
    Nat → Nat → Option Nat
  | 0, _ => none
  | fuel + 1, endD =>
    if sameHoliday provider name (endD + 1) then
      expandFwd provider name fuel (endD + 1)
    else some endD

/-- Embedding of the `holidayProgress` memo.  The outer `Option` is the fuel
marker of the two scans: `none` means the computation has not terminated
within `fuel` loop iterations; `some r` means the source returns `r` (where
`r = none` is the source's `null`). -/
def holidayProgress (currentDate : Nat) (customHolidays : List CustomHoliday)
    (provider : Nat → Option Holiday) (fuel : Nat) : Option (Option Progress) :=
  let dateStr := formatDay currentDate
  match customHolidays.find? (fun h => inRange h dateStr) with
  | some ch =>
    let start := parseToRataDie ch.start
    let stop := parseToRataDie ch.«end»
    let total : Int := (stop : Int) - (start : Int) + 1
    let current : Int := (currentDate : Int) - (start : Int) + 1
    some (some { name := ch.name, current := current, remaining := total - current })
  | none =>
    match provider currentDate with
    | some h =>
      if !h.isWork then
        match expandBack provider h.name fuel currentDate with
        | none => none
        | some startD =>
          match expandFwd provider h.name fuel currentDate with
          | none => none
          | some endD =>
            let total : Int := (endD : Int) - (startD : Int) + 1
            let current : Int := (currentDate : Int) - (startD : Int) + 1
            some (some { name := h.name, current := current, remaining := total - current })
      else some none
    | none => some none

/-! ## Session state handlers (lines 355-385) -/

/-- Embedding of `toggleMark`: flip membership of the date's key in the
marked-date set (`new Set(prev)` plus `delete` / `add`). -/
def toggleMark (date : Nat) (prev : Finset String) : Finset String :=
  let dateStr := formatDay date
  if dateStr ∈ prev then prev.erase dateStr else insert dateStr prev

/-- The component state touched by `handleSaveCustomHoliday`. -/
structure CalendarState where
  selectedDate : Option Nat
  holidayNameInput : String
  holidayEndInput : String
  customHolidays : List CustomHoliday
  showCustomHolidayForm : Bool
deriving DecidableEq, Repr

/-- Embedding of `handleSaveCustomHoliday` as a pure state transformer; the
`now` argument stands for `Date.now().toString()`.  Each early `return` of
the source leaves the state unchanged; JS falsiness of the missing-input
checks is emptiness of the strings. -/
def handleSaveCustomHoliday (now : String) (st : CalendarState) : CalendarState :=
  match st.selectedDate with
  | none => st
  | some sel =>
    if st.holidayNameInput = "" then st
    else if st.holidayEndInput = "" then st
    else
      let startStr := formatDay sel
      if strLt st.holidayEndInput startStr then st
      else
        { st with
          customHolidays := st.customHolidays ++
            [{ id := now, name := st.holidayNameInput, start := startStr,
               «end» := st.holidayEndInput }]
          showCustomHolidayForm := false
          holidayNameInput := ""
          holidayEndInput := "" }

/-! ## Spec-side definitions and concrete fixtures -/

/-- Auxiliary for the calendar proofs: total length of the `c` consecutive
years starting at `y0`. -/
def daysBetween (y0 : Nat) : Nat → Nat
  | 0 => 0
  | c + 1 => daysInYear y0 + daysBetween (y0 + 1) c

/-- Default day record used as the `getD` placeholder when indexing grids. -/
def defaultDayData : DayData :=
  { date := 0
    dateStr := ""
    isCurrentMonth := false
    lunarDay := ""
    festival := ""
    isBuiltInHoliday := false
    isBuiltInWork := false
    builtInHolidayName := ""
    isHoliday := false
    isWork := false
    holidayName := ""
    isMarked := false }

/-- Trivial lunar oracle used in concrete grids. -/
def wOracle : Nat → String × String := fun _ => ("", "")

/-- Trivial holiday provider used in concrete grids. -/
def wProvider : Nat → Option Holiday := fun _ => none

/-- Spec-side reading of the block-start rule, following the claim's wording:
a holiday whose previous cell is absent (first cell), not a holiday, or
differently named, or any cell falling on a Monday. -/
def blockStartSpec (days : List DayData) (idx : Nat) (day : DayData) : Prop :=
  (day.isHoliday = true ∧
    (idx = 0 ∨ ∃ p, days[idx - 1]? = some p ∧
      (p.isHoliday = false ∨ p.holidayName ≠ day.holidayName))) ∨
  getDay day.date = 1

/-- Spec-side reading of the block-end rule, symmetric with the next cell and
Sunday. -/
def blockEndSpec (days : List DayData) (idx : Nat) (day : DayData) : Prop :=
  (day.isHoliday = true ∧
    (idx = 41 ∨ ∃ nx, days[idx + 1]? = some nx ∧
      (nx.isHoliday = false ∨ nx.holidayName ≠ day.holidayName))) ∨
  getDay day.date = 0

/-- Concrete day record used to witness the merge claims. -/
def wBase : BaseDayData :=
  { date := rataDie 2026 2 22
    dateStr := "2026-02-22"
    isCurrentMonth := true
    lunarDay := "初六"
    festival := ""
    isBuiltInHoliday := false
    isBuiltInWork := true
    builtInHolidayName := "" }

/-- Concrete custom range not containing 2026-02-22. -/
def wMiss : CustomHoliday :=
  { id := "a", name := "出差", start := "2026-03-01", «end» := "2026-03-05" }

/-- Concrete custom range containing 2026-02-22. -/
def wHit : CustomHoliday :=
  { id := "b", name := "年假", start := "2026-02-20", «end» := "2026-02-23" }

/-- Concrete state used to witness the invalid-save claim: the end input
2026-02-20 is before the selected start 2026-02-22. -/
def wBadState : CalendarState :=
  { selectedDate := some (rataDie 2026 2 22)
    holidayNameInput := "年假"
    holidayEndInput := "2026-02-20"
    customHolidays := []
    showCustomHolidayForm := true }

/-- Concrete state whose holiday-name input is missing. -/
def wNoNameState : CalendarState :=
  { selectedDate := some (rataDie 2026 2 22)
    holidayNameInput := ""
    holidayEndInput := "2026-02-25"
    customHolidays := []
    showCustomHolidayForm := true }

/-- Provider with a single-day built-in holiday on 2026-04-04, used to
witness the built-in-block claim. -/
def aprilProvider : Nat → Option Holiday := fun d =>
  if d = rataDie 2026 4 4 then some { name := "清明节", isWork := false } else none

/-- A malformed provider that reports every single day as the same
non-workday holiday: an unbroken infinite holiday run. -/
def endlessProvider : Nat → Option Holiday := fun _ => some { name := "假", isWork := false }

/-- Concrete non-holiday day record for the block-flag witness. -/
def wPlainDay : DayData :=
  { date := rataDie 2026 4 1
    dateStr := "2026-04-01"
    isCurrentMonth := true
    lunarDay := ""
    festival := ""
    isBuiltInHoliday := false
    isBuiltInWork := false
    builtInHolidayName := ""
    isHoliday := false
    isWork := false
    holidayName := ""
    isMarked := false }

/-- Concrete isolated holiday day record for the block-flag witness. -/
def wHolidayDay : DayData :=
  { date := rataDie 2026 4 4
    dateStr := "2026-04-04"
    isCurrentMonth := true
    lunarDay := ""
    festival := "清明"
    isBuiltInHoliday := true
    isBuiltInWork := false
    builtInHolidayName := "清明节"
    isHoliday := true
    isWork := false
    holidayName := "清明节"
    isMarked := false }

/-- Concrete 42-cell grid with a single isolated holiday at index 3. -/
def wDays : List DayData :=
  List.replicate 3 wPlainDay ++ wHolidayDay :: List.replicate 38 wPlainDay

/-! ## Helper lemmas -/

/-- First-match characterization of `List.find?`: scanning `pre ++ ch :: post`
finds `ch` when everything before it fails the predicate and `ch` passes. -/
theorem find?_first {α : Type} {p : α → Bool} :
    ∀ (pre : List α) (ch : α) (post : List α),
      (∀ c ∈ pre, p c = false) → p ch = true →
      (pre ++ ch :: post).find? p = some ch := by
  intro pre ch post hpre hch
  induction pre with
  | nil => simpa using List.find?_cons_of_pos post hch
  | cons a rest ih =>
    have ha : p a = false := hpre a (by simp)
    rw [List.cons_append, List.find?_cons_of_neg _ (by simp [ha])]
    exact ih (fun c hc => hpre c (by simp [hc]))

/-- Step identity of the day count before a year. -/
theorem daysBeforeYear_succ (y : Nat) (hy : 1 ≤ y) :
    daysBeforeYear (y + 1) = daysBeforeYear y + daysInYear y := by
  obtain ⟨n, rfl⟩ : ∃ n, y = n + 1 := ⟨y - 1, by omega⟩
  unfold daysBeforeYear daysInYear isLeap
  simp only [Nat.add_sub_cancel]
  rw [Nat.succ_div, Nat.succ_div, Nat.succ_div]
  have h4 : (4 ∣ n + 1) ↔ (n + 1) % 4 = 0 := Nat.dvd_iff_mod_eq_zero
  have h100 : (100 ∣ n + 1) ↔ (n + 1) % 100 = 0 := Nat.dvd_iff_mod_eq_zero
  have h400 : (400 ∣ n + 1) ↔ (n + 1) % 400 = 0 := Nat.dvd_iff_mod_eq_zero
  by_cases c4 : (n + 1) % 4 = 0 <;> by_cases c100 : (n + 1) % 100 = 0 <;>
    by_cases c400 : (n + 1) % 400 = 0 <;>
    simp only [h4, h100, h400, c4, c100, c400, if_true, if_false, beq_iff_eq,
      bne_iff_ne, ne_eq, decide_eq_true_eq] <;>
    simp [c4, c100, c400] <;> omega

/-- Right-unfolding of `daysBetween`. -/
theorem daysBetween_succ_right : ∀ (c y0 : Nat),
    daysBetween y0 (c + 1) = daysBetween y0 c + daysInYear (y0 + c) := by
  intro c
  induction c with
  | zero => intro y0; simp [daysBetween]
  | succ k ih =>
    intro y0
    show daysInYear y0 + daysBetween (y0 + 1) (k + 1) = _
    rw [ih (y0 + 1)]
    show _ = daysInYear y0 + daysBetween (y0 + 1) k + daysInYear (y0 + (k + 1))
    have : y0 + 1 + k = y0 + (k + 1) := by omega
    rw [this, Nat.add_assoc]

/-- The closed-form `daysBeforeYear` is the sum of the year lengths. -/
theorem daysBeforeYear_eq_daysBetween : ∀ (y : Nat), 1 ≤ y →
    daysBeforeYear y = daysBetween 1 (y - 1) := by
  intro y
  induction y with
  | zero => intro h; omega
  | succ k ih =>
    intro _
    by_cases hk : k = 0
    · subst hk; rfl
    · have hk1 : 1 ≤ k := by omega
      rw [daysBeforeYear_succ k hk1, ih hk1]
      have h1 : k + 1 - 1 = (k - 1) + 1 := by omega
      rw [h1, daysBetween_succ_right]
      have h2 : 1 + (k - 1) = k := by omega
      rw [h2]

/-- With enough fuel the year search lands on the year containing the day. -/
theorem yearFromDay_reach : ∀ (c y0 r fuel : Nat), 1 ≤ r → r ≤ daysInYear (y0 + c) →
    c ≤ fuel → yearFromDay fuel y0 (daysBetween y0 c + r) = (y0 + c, r) := by
  intro c
  induction c with
  | zero =>
    intro y0 r fuel hr1 hr2 _
    have hle : ¬ (daysInYear y0 < 0 + r) := by
      simp only [Nat.add_zero] at hr2
      omega
    cases fuel with
    | zero => simp [yearFromDay, daysBetween]
    | succ f =>
      show yearFromDay (f + 1) y0 (0 + r) = (y0 + 0, r)
      simp only [yearFromDay, if_neg hle]
      simp
  | succ c ih =>
    intro y0 r fuel hr1 hr2 hfuel
    obtain ⟨f, rfl⟩ : ∃ f, fuel = f + 1 := ⟨fuel - 1, by omega⟩
    have hle : r ≤ daysInYear (y0 + 1 + c) := by
      rw [show y0 + 1 + c = y0 + (c + 1) from by omega]
      exact hr2
    have harg : daysBetween y0 (c + 1) + r = daysInYear y0 + (daysBetween (y0 + 1) c + r) := by
      show daysInYear y0 + daysBetween (y0 + 1) c + r = _
      omega
    rw [harg]
    have hpos : daysInYear y0 < daysInYear y0 + (daysBetween (y0 + 1) c + r) := by omega
    show (if daysInYear y0 < daysInYear y0 + (daysBetween (y0 + 1) c + r) then
        yearFromDay f (y0 + 1) (daysInYear y0 + (daysBetween (y0 + 1) c + r) - daysInYear y0)
      else (y0, daysInYear y0 + (daysBetween (y0 + 1) c + r))) = (y0 + (c + 1), r)
    rw [if_pos hpos, Nat.add_sub_cancel_left]
    rw [ih (y0 + 1) r f hr1 hle (by omega)]
    rw [show y0 + 1 + c = y0 + (c + 1) from by omega]

/-- The month search lands on the month containing the day-of-year. -/
theorem splitMonths_reach : ∀ (L : List Nat) (k d : Nat), k < L.length → 1 ≤ d →
    d ≤ L.getD k 0 → splitMonths L ((L.take k).sum + d) = (k, d) := by
  intro L
  induction L with
  | nil => intro k d hk; simp at hk
  | cons len rest ih =>
    intro k d hk hd1 hd2
    cases k with
    | zero =>
      simp only [List.take_zero, List.sum_nil, Nat.zero_add]
      simp only [List.getD_cons_zero] at hd2
      simp [splitMonths, hd2]
    | succ k =>
      simp only [List.take_succ_cons, List.sum_cons]
      simp only [List.getD_cons_succ] at hd2
      have hk' : k < rest.length := by simpa using hk
      have hne : ¬ (len + ((rest.take k).sum + d) ≤ len) := by omega
      simp only [splitMonths, Nat.add_assoc, if_neg hne]
      rw [Nat.add_sub_cancel_left]
      rw [ih k d hk' hd1 hd2]

/-- A prefix sum plus the next element is at most the total sum. -/
theorem sum_take_getD_le : ∀ (L : List Nat) (k : Nat), k < L.length →
    (L.take k).sum + L.getD k 0 ≤ L.sum := by
  intro L
  induction L with
  | nil => intro k hk; simp at hk
  | cons a rest ih =>
    intro k hk
    cases k with
    | zero => simp
    | succ k =>
      have hk' : k < rest.length := by simpa using hk
      simp only [List.take_succ_cons, List.sum_cons, List.getD_cons_succ, Nat.add_assoc]
      have := ih k hk'
      omega

/-- Unfolding of a prefix sum by one element. -/
theorem sum_take_succ_getD : ∀ (L : List Nat) (k : Nat), k < L.length →
    (L.take (k + 1)).sum = (L.take k).sum + L.getD k 0 := by
  intro L
  induction L with
  | nil => intro k hk; simp at hk
  | cons a rest ih =>
    intro k hk
    cases k with
    | zero => simp
    | succ k =>
      have hk' : k < rest.length := by simpa using hk
      simp only [List.take_succ_cons, List.sum_cons, List.getD_cons_succ]
      rw [ih k hk']
      omega

/-- The month lengths of a year sum to its length. -/
theorem monthLengths_sum (b : Bool) : (monthLengths b).sum = if b then 366 else 365 := by
  cases b <;> rfl

/-- There are twelve month lengths. -/
theorem monthLengths_length (b : Bool) : (monthLengths b).length = 12 := by
  cases b <;> rfl

/-- Round-trip: `civilFromRataDie` inverts `rataDie` on valid civil dates. -/
theorem civilFromRataDie_rataDie (y m d : Nat) (hy : 1 ≤ y) (hm1 : 1 ≤ m) (hm2 : m ≤ 12)
    (hd1 : 1 ≤ d) (hd2 : d ≤ daysInMonth y m) :
    civilFromRataDie (rataDie y m d) = (y, m, d) := by
  have hlen : (monthLengths (isLeap y)).length = 12 := monthLengths_length _
  have hdoy : daysBeforeMonth y m + d ≤ daysInYear y := by
    have hb := sum_take_getD_le (monthLengths (isLeap y)) (m - 1) (by omega)
    have hsum : (monthLengths (isLeap y)).sum = daysInYear y := by
      rw [monthLengths_sum]; rfl
    unfold daysBeforeMonth
    unfold daysInMonth at hd2
    omega
  have hfuel : y - 1 ≤ rataDie y m d := by
    unfold rataDie daysBeforeYear
    have : (y - 1) ≤ (y - 1) * 365 := by omega
    omega
  have hn : daysBetween 1 (y - 1) + (daysBeforeMonth y m + d) = rataDie y m d := by
    rw [← daysBeforeYear_eq_daysBetween y hy]
    unfold rataDie
    omega
  have hyear : yearFromDay (rataDie y m d) 1 (rataDie y m d) = (y, daysBeforeMonth y m + d) := by
    have h := yearFromDay_reach (y - 1) 1 (daysBeforeMonth y m + d) (rataDie y m d)
      (by omega) (by rw [show 1 + (y - 1) = y by omega]; exact hdoy) hfuel
    rw [hn] at h
    rw [h]
    congr 1
    omega
  have hsplit : splitMonths (monthLengths (isLeap y)) (daysBeforeMonth y m + d) = (m - 1, d) := by
    have h := splitMonths_reach (monthLengths (isLeap y)) (m - 1) d (by omega) hd1
      (by unfold daysInMonth at hd2; exact hd2)
    unfold daysBeforeMonth
    exact h
  unfold civilFromRataDie
  rw [hyear]
  simp only [hsplit]
  rw [Nat.sub_add_cancel hm1]

/-- Day 1 of any month has a positive rata-die number. -/
theorem jsDate_one_pos (year m : Nat) : 1 ≤ jsDate year m 1 := by
  unfold jsDate rataDie
  omega

/-- Advancing the day argument advances the date. -/
theorem jsDate_add (year m k : Nat) : jsDate year m ((k : Int) + 1) = jsDate year m 1 + k := by
  unfold jsDate
  omega

/-- A non-positive day argument steps back from day 1. -/
theorem jsDate_sub (year m i : Nat) (hi : i ≤ jsDate year m 1) :
    jsDate year m (1 - (i : Int)) = jsDate year m 1 - i := by
  unfold jsDate at hi ⊢
  omega

/-- For an in-range 0-based month, day 1 is the plain rata-die value. -/
theorem jsDate_one (year m : Nat) (hm : m < 12) : jsDate year m 1 = rataDie year (m + 1) 1 := by
  unfold jsDate
  rw [Nat.div_eq_of_lt hm, Nat.mod_eq_of_lt hm, Int.add_sub_cancel, Int.toNat_natCast,
    Nat.add_zero]

/-- The Monday-first leading offset is at most 6. -/
theorem startOffsetOf_le_six (year m : Nat) : startOffsetOf year m ≤ 6 := by
  have h7 : jsDate year m 1 % 7 < 7 := Nat.mod_lt _ (by omega)
  by_cases h : jsDate year m 1 % 7 = 0
  · simp [startOffsetOf, getDay, h]
  · simp only [startOffsetOf, getDay, beq_iff_eq, h, if_false]
    omega

/-- The leading offset never exceeds the first day's rata-die number. -/
theorem startOffsetOf_le_first (year m : Nat) : startOffsetOf year m ≤ jsDate year m 1 := by
  have hpos := jsDate_one_pos year m
  have hle := Nat.mod_le (jsDate year m 1) 7
  by_cases h : jsDate year m 1 % 7 = 0
  · simp only [startOffsetOf, getDay, beq_iff_eq, h, if_true]
    omega
  · simp only [startOffsetOf, getDay, beq_iff_eq, h, if_false]
    omega

/-- Every month has between 28 and 31 days. -/
theorem daysInMonth_bounds (y mm : Nat) (h1 : 1 ≤ mm) (h2 : mm ≤ 12) :
    28 ≤ daysInMonth y mm ∧ daysInMonth y mm ≤ 31 := by
  unfold daysInMonth
  cases hb : isLeap y <;> interval_cases mm <;> decide

/-- Day 1 is the successor of day 0. -/
theorem jsDate_zero_succ (year mm : Nat) : jsDate year mm 1 = jsDate year mm 0 + 1 := by
  unfold jsDate rataDie
  omega

/-- The `new Date(year, m + 1, 0)` cell is the last day of 0-based month `m`. -/
theorem lastDay_eq (year m : Nat) (hy : 1 ≤ year) (hm : m < 12) :
    jsDate year (m + 1) 0 = jsDate year m 1 + daysInMonth year (m + 1) - 1 := by
  rw [jsDate_one year m hm]
  by_cases h12 : m + 1 < 12
  · have hstep : daysBeforeMonth year (m + 1 + 1) =
        daysBeforeMonth year (m + 1) + daysInMonth year (m + 1) := by
      unfold daysBeforeMonth daysInMonth
      simp only [Nat.add_sub_cancel]
      exact sum_take_succ_getD _ m (by rw [monthLengths_length]; omega)
    unfold jsDate
    rw [Nat.div_eq_of_lt h12, Nat.mod_eq_of_lt h12]
    simp only [Nat.add_zero]
    unfold rataDie
    omega
  · have hm11 : m = 11 := by omega
    subst hm11
    have hyearstep : daysBeforeMonth year 12 + daysInMonth year 12 = daysInYear year := by
      unfold daysBeforeMonth daysInMonth
      have h := sum_take_succ_getD (monthLengths (isLeap year)) 11
        (by rw [monthLengths_length]; omega)
      have h2 : (monthLengths (isLeap year)).take 12 = monthLengths (isLeap year) := by
        cases isLeap year <;> rfl
      have h3 : (monthLengths (isLeap year)).sum = daysInYear year := by
        rw [monthLengths_sum]; rfl
      simp only [show (12 : Nat) - 1 = 11 from rfl]
      have h4 : ((monthLengths (isLeap year)).take 11).sum + (monthLengths (isLeap year)).getD 11 0
          = ((monthLengths (isLeap year)).take 12).sum := h.symm
      rw [h4, h2, h3]
    unfold jsDate
    simp only [show (11 + 1 : Nat) / 12 = 1 from rfl, show (11 + 1 : Nat) % 12 = 0 from rfl,
      Nat.zero_add, show (11 + 1 : Nat) = 12 from rfl]
    unfold rataDie
    rw [daysBeforeYear_succ year hy]
    have hbm1 : daysBeforeMonth (year + 1) 1 = 0 := by
      unfold daysBeforeMonth
      simp
    rw [hbm1]
    omega

/-- The day-of-month of the last day of a month is the month's length. -/
theorem getDate_lastDay (year m : Nat) (hy : 1 ≤ year) (hm : m < 12) :
    getDate (jsDate year (m + 1) 0) = daysInMonth year (m + 1) := by
  have hb := daysInMonth_bounds year (m + 1) (by omega) (by omega)
  have hlast : jsDate year (m + 1) 0 = rataDie year (m + 1) (daysInMonth year (m + 1)) := by
    rw [lastDay_eq year m hy hm, jsDate_one year m hm]
    unfold rataDie
    omega
  rw [hlast]
  unfold getDate
  rw [civilFromRataDie_rataDie year (m + 1) (daysInMonth year (m + 1)) hy (by omega) (by omega)
    (by omega) le_rfl]

/-- Shape of the month grid: 42 cells whose dates march one day at a time from `firstDay - offset`, flagged as current exactly inside the month. -/
theorem monthCells_spec (year m : Nat) (hy : 1 ≤ year) (hm : m < 12) :
    (monthCells year m).length = 42 ∧
    ∀ i, i < 42 →
      (monthCells year m).getD i ((0 : Nat), false) =
        (jsDate year m 1 + i - startOffsetOf year m,
         decide (startOffsetOf year m ≤ i ∧
           i < startOffsetOf year m + daysInMonth year (m + 1))) := by
  have hoff6 := startOffsetOf_le_six year m
  have hoffF := startOffsetOf_le_first year m
  have hml := getDate_lastDay year m hy hm
  have hb := daysInMonth_bounds year (m + 1) (by omega) (by omega)
  have hF1 := jsDate_one_pos year m
  have hcells : monthCells year m =
      (List.range (startOffsetOf year m)).map
        (fun k => (jsDate year m (1 - ((startOffsetOf year m - k : Nat) : Int)), false)) ++
      ((List.range (daysInMonth year (m + 1))).map
        (fun k : Nat => (jsDate year m ((k : Int) + 1), true)) ++
      (List.range (42 - (startOffsetOf year m + daysInMonth year (m + 1)))).map
        (fun k : Nat => (jsDate year (m + 1) ((k : Int) + 1), false))) := by
    unfold monthCells
    dsimp only
    rw [hml]
    simp only [List.length_append, List.length_map, List.length_range]
    rw [List.append_assoc]
  constructor
  · rw [hcells]
    simp only [List.length_append, List.length_map, List.length_range]
    omega
  · intro i hi
    rw [hcells, List.getD_eq_getElem?_getD]
    by_cases h1 : i < startOffsetOf year m
    · rw [List.getElem?_append_left
        (by simp only [List.length_map, List.length_range]; omega)]
      rw [List.getElem?_map, List.getElem?_range h1]
      simp only [Option.map_some', Option.getD_some]
      rw [jsDate_sub year m (startOffsetOf year m - i) (by omega)]
      have hval : jsDate year m 1 - (startOffsetOf year m - i) =
          jsDate year m 1 + i - startOffsetOf year m := by omega
      have hbool : decide (startOffsetOf year m ≤ i ∧
          i < startOffsetOf year m + daysInMonth year (m + 1)) = false :=
        decide_eq_false (by omega)
      rw [hval, hbool]
    · rw [List.getElem?_append_right
        (by simp only [List.length_map, List.length_range]; omega)]
      simp only [List.length_map, List.length_range]
      by_cases h2 : i < startOffsetOf year m + daysInMonth year (m + 1)
      · rw [List.getElem?_append_left
          (by simp only [List.length_map, List.length_range]; omega)]
        rw [List.getElem?_map,
          List.getElem?_range (show i - startOffsetOf year m < daysInMonth year (m + 1) by omega)]
        simp only [Option.map_some', Option.getD_some]
        rw [jsDate_add year m (i - startOffsetOf year m)]
        have hval : jsDate year m 1 + (i - startOffsetOf year m) =
            jsDate year m 1 + i - startOffsetOf year m := by omega
        have hbool : decide (startOffsetOf year m ≤ i ∧
            i < startOffsetOf year m + daysInMonth year (m + 1)) = true :=
          decide_eq_true (by omega)
        rw [hval, hbool]
      · rw [List.getElem?_append_right
          (by simp only [List.length_map, List.length_range]; omega)]
        simp only [List.length_map, List.length_range]
        rw [List.getElem?_map,
          List.getElem?_range (show i - startOffsetOf year m - daysInMonth year (m + 1) <
            42 - (startOffsetOf year m + daysInMonth year (m + 1)) by omega)]
        simp only [Option.map_some', Option.getD_some]
        rw [jsDate_add year (m + 1) (i - startOffsetOf year m - daysInMonth year (m + 1))]
        have hN : jsDate year (m + 1) 1 = jsDate year m 1 + daysInMonth year (m + 1) := by
          rw [jsDate_zero_succ year (m + 1), lastDay_eq year m hy hm]
          omega
        rw [hN]
        have hval : jsDate year m 1 + daysInMonth year (m + 1) +
            (i - startOffsetOf year m - daysInMonth year (m + 1)) =
            jsDate year m 1 + i - startOffsetOf year m := by omega
        have hbool : decide (startOffsetOf year m ≤ i ∧
            i < startOffsetOf year m + daysInMonth year (m + 1)) = false :=
          decide_eq_false (by omega)
        rw [hval, hbool]

/-- Merging never changes the date or the current-month flag of a record. -/
theorem combineDayData_preserves (base : BaseDayData) (customHolidays : List CustomHoliday)
    (markedDates : Finset String) :
    (combineDayData base customHolidays markedDates).date = base.date ∧
    (combineDayData base customHolidays markedDates).isCurrentMonth = base.isCurrentMonth := by
  unfold combineDayData
  rcases h : customHolidays.find? (fun ch => inRange ch base.dateStr) with _ | ch <;>
    exact ⟨rfl, rfl⟩

/-- Indexing a mapped list inside bounds. -/
theorem getD_map_of_lt {α β : Type} (f : α → β) (l : List α) (i : Nat) (d : α) (d' : β)
    (h : i < l.length) : (l.map f).getD i d' = f (l.getD i d) := by
  rw [List.getD_eq_getElem?_getD, List.getD_eq_getElem?_getD, List.getElem?_map f l i,
    List.getElem?_eq_getElem h]
  rfl


/-! ## Claim theorems -/

/-- C9: toggling a marked date twice returns the marked-date set to its
original state — `toggleMark` flips membership of the date's key, so two
toggles are the identity. -/
theorem toggleMark_twice_id (date : Nat) (prev : Finset String) :
    toggleMark date (toggleMark date prev) = prev := by
  unfold toggleMark
  by_cases h : formatDay date ∈ prev
  · rw [if_pos h, if_neg (Finset.not_mem_erase _ _)]
    exact Finset.insert_erase h
  · rw [if_neg h, if_pos (Finset.mem_insert_self _ _)]
    exact Finset.erase_insert h

/-- C10: a merged day record never has `isHoliday = true` and `isWork = true`
at once: the built-in flags of `getBaseDayData` come from the single
`isWork()` boolean of the provider's holiday record, and a matching custom
range forces `isHoliday = true, isWork = false`. -/
theorem dayRecord_never_holiday_and_work (date : Nat) (isCurrentMonth : Bool)
    (lunarDay festival : String) (holiday : Option Holiday)
    (customHolidays : List CustomHoliday) (markedDates : Finset String) :
    ¬ ((combineDayData (getBaseDayData date isCurrentMonth lunarDay festival holiday)
          customHolidays markedDates).isHoliday = true ∧
       (combineDayData (getBaseDayData date isCurrentMonth lunarDay festival holiday)
          customHolidays markedDates).isWork = true) := by
  simp only [combineDayData]
  rcases hfind : customHolidays.find?
      (fun ch => inRange ch (getBaseDayData date isCurrentMonth lunarDay festival holiday).dateStr)
    with _ | ch
  · simp only [hfind]
    cases holiday with
    | none => simp [getBaseDayData]
    | some h => cases hw : h.isWork <;> simp [getBaseDayData, hw]
  · simp only [hfind]
    simp

/-- C1: `combineDayData` scans the custom ranges in order; the first range
whose inclusive bounds (JS string comparison of zero-padded date keys)
contain the date wins and overrides `isHoliday = true`, `isWork = false`,
`holidayName = range.name` regardless of the built-in facts, and when no
range matches the built-in flags pass through unchanged. -/
theorem combineDayData_first_match_overrides :
    (∀ (base : BaseDayData) (markedDates : Finset String)
       (pre post : List CustomHoliday) (ch : CustomHoliday),
       (∀ c ∈ pre, inRange c base.dateStr = false) →
       inRange ch base.dateStr = true →
       (combineDayData base (pre ++ ch :: post) markedDates).isHoliday = true ∧
       (combineDayData base (pre ++ ch :: post) markedDates).isWork = false ∧
       (combineDayData base (pre ++ ch :: post) markedDates).holidayName = ch.name) ∧
    (∀ (base : BaseDayData) (markedDates : Finset String) (chs : List CustomHoliday),
       (∀ c ∈ chs, inRange c base.dateStr = false) →
       (combineDayData base chs markedDates).isHoliday = base.isBuiltInHoliday ∧
       (combineDayData base chs markedDates).isWork = base.isBuiltInWork ∧
       (combineDayData base chs markedDates).holidayName = base.builtInHolidayName) := by
  constructor
  · intro base markedDates pre post ch hpre hch
    have hfind := find?_first pre ch post hpre hch
    simp [combineDayData, hfind]
  · intro base markedDates chs hnone
    have hfind : chs.find? (fun c => inRange c base.dateStr) = none := by
      rw [List.find?_eq_none]
      intro c hc
      simp [hnone c hc]
    simp [combineDayData, hfind]

/-- Witness for C1 at concrete inputs: the second range matches and
overrides a built-in workday; with only the non-matching range the built-in
flags pass through. -/
theorem combineDayData_first_match_overrides_witness :
    ((combineDayData wBase ([wMiss] ++ wHit :: []) ∅).isHoliday = true ∧
     (combineDayData wBase ([wMiss] ++ wHit :: []) ∅).isWork = false ∧
     (combineDayData wBase ([wMiss] ++ wHit :: []) ∅).holidayName = wHit.name) ∧
    ((combineDayData wBase [wMiss] ∅).isHoliday = wBase.isBuiltInHoliday ∧
     (combineDayData wBase [wMiss] ∅).isWork = wBase.isBuiltInWork ∧
     (combineDayData wBase [wMiss] ∅).holidayName = wBase.builtInHolidayName) :=
  ⟨combineDayData_first_match_overrides.1 wBase ∅ [wMiss] [] wHit (by decide) (by decide),
   combineDayData_first_match_overrides.2 wBase ∅ [wMiss] (by decide)⟩

/-- C8: an attempt to save a custom holiday range whose end date is
lexicographically earlier than its start date, or whose name is missing
(empty), is rejected: the handler returns the state unchanged (in
particular no range is appended), and being a total function it raises
nothing. -/
theorem handleSaveCustomHoliday_rejects_invalid :
    (∀ (now : String) (st : CalendarState) (sel : Nat),
       st.selectedDate = some sel →
       strLt st.holidayEndInput (formatDay sel) = true →
       handleSaveCustomHoliday now st = st) ∧
    (∀ (now : String) (st : CalendarState),
       st.holidayNameInput = "" →
       handleSaveCustomHoliday now st = st) := by
  constructor
  · intro now st sel hsel hlt
    unfold handleSaveCustomHoliday
    rw [hsel]
    by_cases h1 : st.holidayNameInput = ""
    · simp [h1]
    · by_cases h2 : st.holidayEndInput = ""
      · simp [h1, h2]
      · simp [h1, h2, hlt]
  · intro now st hname
    unfold handleSaveCustomHoliday
    cases hsel : st.selectedDate with
    | none => rfl
    | some sel => simp [hname]

/-- Witness for C8 at concrete inputs. -/
theorem handleSaveCustomHoliday_rejects_invalid_witness :
    handleSaveCustomHoliday "0" wBadState = wBadState ∧
    handleSaveCustomHoliday "0" wNoNameState = wNoNameState :=
  ⟨handleSaveCustomHoliday_rejects_invalid.1 "0" wBadState (rataDie 2026 2 22)
     (by decide) (by decide),
   handleSaveCustomHoliday_rejects_invalid.2 "0" wNoNameState (by decide)⟩

/-- The backward scan stops exactly at the start of the contiguous guard
block: with the guard true on `[s, ref)` and false at `s - 1`, enough fuel
drives the loop from `ref` down to `s`. -/
theorem expandBack_reaches (provider : Nat → Option Holiday) (name : String) :
    ∀ (fuel ref s : Nat), 0 < s → s ≤ ref → ref - s < fuel →
      (∀ d, s ≤ d → d < ref → sameHoliday provider name d = true) →
      sameHoliday provider name (s - 1) = false →
      expandBack provider name fuel ref = some s := by
  intro fuel
  induction fuel with
  | zero => intro ref s _ _ h3 _ _; omega
  | succ f ih =>
    intro ref s hs hle _ hall hstop
    by_cases h : ref = s
    · subst h
      simp [expandBack, hstop]
    · have hlt : s < ref := lt_of_le_of_ne hle (Ne.symm h)
      have hguard : sameHoliday provider name (ref - 1) = true :=
        hall (ref - 1) (by omega) (by omega)
      simp only [expandBack, hguard, if_pos]
      exact ih (ref - 1) s hs (by omega) (by omega)
        (fun d hd1 hd2 => hall d hd1 (by omega)) hstop

/-- The forward scan stops exactly at the end of the contiguous guard block. -/
theorem expandFwd_reaches (provider : Nat → Option Holiday) (name : String) :
    ∀ (fuel ref e : Nat), ref ≤ e → e - ref < fuel →
      (∀ d, ref < d → d ≤ e → sameHoliday provider name d = true) →
      sameHoliday provider name (e + 1) = false →
      expandFwd provider name fuel ref = some e := by
  intro fuel
  induction fuel with
  | zero => intro ref e _ h2 _ _; omega
  | succ f ih =>
    intro ref e hle _ hall hstop
    by_cases h : ref = e
    · subst h
      simp [expandFwd, hstop]
    · have hlt : ref < e := lt_of_le_of_ne hle h
      have hguard : sameHoliday provider name (ref + 1) = true :=
        hall (ref + 1) (by omega) (by omega)
      simp only [expandFwd, hguard, if_pos]
      exact ih (ref + 1) e (by omega) (by omega)
        (fun d hd1 hd2 => hall d (by omega) hd2) hstop

/-- C3: when a custom range contains the reference date (first match in
order), `holidayProgress` returns its name with day-index
`(referenceDate − start) + 1` and remaining `(end − start + 1) − day-index`;
at the reference date 2026-02-22 with the range 2026-02-20..2026-02-23 this
is day-index 3, remaining 1. -/
theorem holidayProgress_custom_range :
    (∀ (provider : Nat → Option Holiday) (fuel : Nat),
       holidayProgress (rataDie 2026 2 22)
         [{ id := "1", name := "年假", start := "2026-02-20", «end» := "2026-02-23" }]
         provider fuel =
         some (some { name := "年假", current := 3, remaining := 1 })) ∧
    (∀ (currentDate : Nat) (customHolidays : List CustomHoliday)
       (provider : Nat → Option Holiday) (fuel : Nat) (ch : CustomHoliday),
       customHolidays.find? (fun h => inRange h (formatDay currentDate)) = some ch →
       holidayProgress currentDate customHolidays provider fuel =
         some (some { name := ch.name
                      current := (currentDate : Int) - (parseToRataDie ch.start : Int) + 1
                      remaining :=
                        ((parseToRataDie ch.«end» : Int) - (parseToRataDie ch.start : Int) + 1) -
                          ((currentDate : Int) - (parseToRataDie ch.start : Int) + 1) })) := by
  have general : ∀ (currentDate : Nat) (customHolidays : List CustomHoliday)
      (provider : Nat → Option Holiday) (fuel : Nat) (ch : CustomHoliday),
      customHolidays.find? (fun h => inRange h (formatDay currentDate)) = some ch →
      holidayProgress currentDate customHolidays provider fuel =
        some (some { name := ch.name
                     current := (currentDate : Int) - (parseToRataDie ch.start : Int) + 1
                     remaining :=
                       ((parseToRataDie ch.«end» : Int) - (parseToRataDie ch.start : Int) + 1) -
                         ((currentDate : Int) - (parseToRataDie ch.start : Int) + 1) }) := by
    intro currentDate customHolidays provider fuel ch hfind
    simp only [holidayProgress, hfind]
  refine ⟨?_, general⟩
  intro provider fuel
  rw [general (rataDie 2026 2 22)
      [{ id := "1", name := "年假", start := "2026-02-20", «end» := "2026-02-23" }]
      provider fuel
      { id := "1", name := "年假", start := "2026-02-20", «end» := "2026-02-23" }
      (by decide)]
  decide

/-- Witness for C3's general part at a concrete input away from the
spec's reference example. -/
theorem holidayProgress_custom_range_witness :
    holidayProgress (rataDie 2026 5 2)
      [{ id := "7", name := "出游", start := "2026-05-01", «end» := "2026-05-05" }]
      (fun _ => none) 0 =
      some (some { name := "出游"
                   current := ((rataDie 2026 5 2 : Nat) : Int) -
                     (parseToRataDie "2026-05-01" : Int) + 1
                   remaining :=
                     ((parseToRataDie "2026-05-05" : Int) - (parseToRataDie "2026-05-01" : Int) + 1) -
                       (((rataDie 2026 5 2 : Nat) : Int) - (parseToRataDie "2026-05-01" : Int) + 1) }) :=
  holidayProgress_custom_range.2 (rataDie 2026 5 2)
    [{ id := "7", name := "出游", start := "2026-05-01", «end» := "2026-05-05" }]
    (fun _ => none) 0
    { id := "7", name := "出游", start := "2026-05-01", «end» := "2026-05-05" }
    (by decide)

/-- C4: with no matching custom range, a built-in non-workday holiday at the
reference date makes `holidayProgress` expand outward through the contiguous
same-named non-workday block `[s, e]` and report day-index
`(referenceDate − s) + 1` and remaining `(e − s + 1) − day-index`; with no
built-in non-workday holiday either, it reports none. -/
theorem holidayProgress_builtin_block :
    (∀ (provider : Nat → Option Holiday) (customHolidays : List CustomHoliday)
       (ref s e fuel : Nat) (h : Holiday),
       customHolidays.find? (fun c => inRange c (formatDay ref)) = none →
       provider ref = some h → h.isWork = false →
       0 < s → s ≤ ref → ref ≤ e →
       (∀ d, s ≤ d → d ≤ e → sameHoliday provider h.name d = true) →
       sameHoliday provider h.name (s - 1) = false →
       sameHoliday provider h.name (e + 1) = false →
       ref - s < fuel → e - ref < fuel →
       holidayProgress ref customHolidays provider fuel =
         some (some { name := h.name
                      current := (ref : Int) - (s : Int) + 1
                      remaining := ((e : Int) - (s : Int) + 1) - ((ref : Int) - (s : Int) + 1) })) ∧
    (∀ (provider : Nat → Option Holiday) (customHolidays : List CustomHoliday)
       (ref fuel : Nat),
       customHolidays.find? (fun c => inRange c (formatDay ref)) = none →
       (provider ref = none ∨ ∃ h, provider ref = some h ∧ h.isWork = true) →
       holidayProgress ref customHolidays provider fuel = some none) := by
  constructor
  · intro provider customHolidays ref s e fuel h hfind hprov hwork hs hsr hre hall hstopB hstopF hfuelB hfuelF
    have hback : expandBack provider h.name fuel ref = some s :=
      expandBack_reaches provider h.name fuel ref s hs hsr hfuelB
        (fun d hd1 hd2 => hall d hd1 (by omega)) hstopB
    have hfwd : expandFwd provider h.name fuel ref = some e :=
      expandFwd_reaches provider h.name fuel ref e hre hfuelF
        (fun d hd1 hd2 => hall d (by omega) hd2) hstopF
    simp only [holidayProgress, hfind, hprov, hwork, Bool.not_false, if_pos, hback, hfwd]
  · intro provider customHolidays ref fuel hfind hcase
    rcases hcase with hnone | ⟨h, hsome, hwork⟩
    · simp only [holidayProgress, hfind, hnone]
    · simp only [holidayProgress, hfind, hsome, hwork, Bool.not_true, if_neg]
      simp

/-- Witness for C4 at concrete inputs: a one-day block gives day-index 1,
remaining 0, and without any holiday the result is none. -/
theorem holidayProgress_builtin_block_witness :
    holidayProgress (rataDie 2026 4 4) [] aprilProvider 1 =
      some (some { name := "清明节", current := 1, remaining := 0 }) ∧
    holidayProgress (rataDie 2026 4 7) [] aprilProvider 1 = some none :=
  ⟨Eq.trans
    (holidayProgress_builtin_block.1 aprilProvider [] (rataDie 2026 4 4)
      (rataDie 2026 4 4) (rataDie 2026 4 4) 1
      { name := "清明节", isWork := false }
      (by decide) (by decide) (by decide) (by decide) (by decide) (by decide)
      (by
        intro d hd1 hd2
        have hd : d = rataDie 2026 4 4 := by omega
        subst hd
        decide)
      (by decide) (by decide) (by decide) (by decide))
    (by decide),
   holidayProgress_builtin_block.2 aprilProvider [] (rataDie 2026 4 7) 1
     (by decide) (Or.inl (by decide))⟩

/-- Under the malformed provider the backward scan never terminates: no
iteration budget makes it return. -/
theorem expandBack_endless (fuel : Nat) :
    ∀ startD, expandBack endlessProvider "假" fuel startD = none := by
  induction fuel with
  | zero => intro startD; rfl
  | succ f ih =>
    intro startD
    simp only [expandBack, sameHoliday, endlessProvider, Bool.not_false, Bool.true_and,
      beq_self_eq_true, if_pos]
    exact ih (startD - 1)

/-- C5 (code bug): the outward holiday-span expansion of `holidayProgress`
has no bound: with the malformed `endlessProvider`, the computation fails to
terminate within any iteration budget whatsoever (the fuel marker is `none`
for every fuel), instead of treating an exceeded bound as "no progress". -/
theorem holidayProgress_scan_unbounded (fuel : Nat) :
    holidayProgress (rataDie 2026 2 22) [] endlessProvider fuel = none := by
  simp only [holidayProgress, List.find?_nil, endlessProvider, Bool.not_false, if_pos,
    expandBack_endless]

/-- C6: on a 42-cell grid the rendered `blockStart` flag holds exactly when
the cell is a holiday preceded by no cell, a non-holiday, or a differently
named holiday, or the cell falls on a Monday; symmetrically for `blockEnd`
with the next cell and Sunday; in particular an isolated holiday day has
both flags set. -/
theorem blockFlags_characterization (days : List DayData) (idx : Nat) (day : DayData)
    (h42 : days.length = 42) (hidx : idx < 42) (hday : days[idx]? = some day) :
    (blockStart days idx day = true ↔ blockStartSpec days idx day) ∧
    (blockEnd days idx day = true ↔ blockEndSpec days idx day) ∧
    (day.isHoliday = true →
      (∀ p, days[idx - 1]? = some p → p.isHoliday = false) →
      (∀ nx, days[idx + 1]? = some nx → nx.isHoliday = false) →
      blockStart days idx day = true ∧ blockEnd days idx day = true) := by
  refine ⟨?_, ?_, ?_⟩
  · cases idx with
    | zero =>
      simp [blockStart, blockStartSpec, prevDayAt, isHolidayStart, isRowStart]
    | succ k =>
      have hk : k < days.length := by omega
      have hp : days[k]? = some days[k] := List.getElem?_eq_getElem hk
      simp only [blockStart, blockStartSpec, prevDayAt, isHolidayStart, isRowStart,
        Nat.succ_sub_one, Nat.lt_irrefl, Nat.zero_lt_succ, if_pos, hp]
      simp only [Bool.or_eq_true, Bool.and_eq_true, Bool.not_eq_true', bne_iff_ne,
        beq_iff_eq, Option.some.injEq, Nat.succ_ne_zero, false_or]
      constructor
      · rintro (⟨h1, h2 | h2⟩ | h3)
        · exact Or.inl ⟨h1, days[k], rfl, Or.inl h2⟩
        · exact Or.inl ⟨h1, days[k], rfl, Or.inr h2⟩
        · exact Or.inr h3
      · rintro (⟨h1, p, hpeq, h2 | h2⟩ | h3)
        · cases hpeq; exact Or.inl ⟨h1, Or.inl h2⟩
        · cases hpeq; exact Or.inl ⟨h1, Or.inr h2⟩
        · exact Or.inr h3
  · by_cases hlast : idx = 41
    · subst hlast
      have : ¬ (41 < days.length - 1) := by omega
      simp [blockEnd, blockEndSpec, nextDayAt, isHolidayEnd, isRowEnd, this]
    · have hin : idx < days.length - 1 := by omega
      have hk : idx + 1 < days.length := by omega
      have hnx : days[idx + 1]? = some days[idx + 1] := List.getElem?_eq_getElem hk
      simp only [blockEnd, blockEndSpec, nextDayAt, isHolidayEnd, isRowEnd, hin, if_pos, hnx]
      simp only [Bool.or_eq_true, Bool.and_eq_true, Bool.not_eq_true', bne_iff_ne,
        beq_iff_eq, Option.some.injEq, hlast, false_or]
      constructor
      · rintro (⟨h1, h2 | h2⟩ | h3)
        · exact Or.inl ⟨h1, days[idx + 1], rfl, Or.inl h2⟩
        · exact Or.inl ⟨h1, days[idx + 1], rfl, Or.inr h2⟩
        · exact Or.inr h3
      · rintro (⟨h1, p, hpeq, h2 | h2⟩ | h3)
        · cases hpeq; exact Or.inl ⟨h1, Or.inl h2⟩
        · cases hpeq; exact Or.inl ⟨h1, Or.inr h2⟩
        · exact Or.inr h3
  · intro hhol hprev hnext
    constructor
    · cases hpv : prevDayAt days idx with
      | none => simp [blockStart, isHolidayStart, hpv, hhol]
      | some p =>
        have hp : days[idx - 1]? = some p := by
          unfold prevDayAt at hpv
          split at hpv
          · exact hpv
          · cases hpv
        simp [blockStart, isHolidayStart, hpv, hhol, hprev p hp]
    · cases hnv : nextDayAt days idx with
      | none => simp [blockEnd, isHolidayEnd, hnv, hhol]
      | some nx =>
        have hn : days[idx + 1]? = some nx := by
          unfold nextDayAt at hnv
          split at hnv
          · exact hnv
          · cases hnv
        simp [blockEnd, isHolidayEnd, hnv, hhol, hnext nx hn]

/-- Witness for C6 at the concrete grid `wDays`, cell 3. -/
theorem blockFlags_characterization_witness :
    (blockStart wDays 3 wHolidayDay = true ↔ blockStartSpec wDays 3 wHolidayDay) ∧
    (blockEnd wDays 3 wHolidayDay = true ↔ blockEndSpec wDays 3 wHolidayDay) ∧
    (wHolidayDay.isHoliday = true →
      (∀ p, wDays[3 - 1]? = some p → p.isHoliday = false) →
      (∀ nx, wDays[3 + 1]? = some nx → nx.isHoliday = false) →
      blockStart wDays 3 wHolidayDay = true ∧ blockEnd wDays 3 wHolidayDay = true) :=
  blockFlags_characterization wDays 3 wHolidayDay (by rfl) (by decide) (by rfl)

/-- C2: for every month the grid has exactly 42 day records; the leading
offset is the Monday-first conversion of day 1's weekday (0 = Sunday goes to
6, else weekday − 1), cell `i` carries the date `firstOfMonth + i − offset`
(so the 1st of the month sits at index `offset`, preceded by days of the
previous month and followed past the month's end by days of the next month),
and `isCurrentMonth` is true exactly on dates within
`[firstOfMonth, lastOfMonth]`. -/
theorem monthView_grid (year m : Nat) (hy : 1 ≤ year) (hm : m < 12)
    (lunarOracle : Nat → String × String) (provider : Nat → Option Holiday)
    (customHolidays : List CustomHoliday) (markedDates : Finset String) :
    (monthView year m lunarOracle provider customHolidays markedDates).length = 42 ∧
    startOffsetOf year m =
      (if getDay (jsDate year m 1) == 0 then 6 else getDay (jsDate year m 1) - 1) ∧
    (∀ i, i < 42 →
      ((monthView year m lunarOracle provider customHolidays markedDates).getD i
          defaultDayData).date = jsDate year m 1 + i - startOffsetOf year m ∧
      (((monthView year m lunarOracle provider customHolidays markedDates).getD i
          defaultDayData).isCurrentMonth = true ↔
        (jsDate year m 1 ≤ jsDate year m 1 + i - startOffsetOf year m ∧
         jsDate year m 1 + i - startOffsetOf year m ≤ jsDate year (m + 1) 0))) ∧
    ((monthView year m lunarOracle provider customHolidays markedDates).getD
        (startOffsetOf year m) defaultDayData).date = jsDate year m 1 := by
  obtain ⟨hlen, hcell⟩ := monthCells_spec year m hy hm
  have hoff6 := startOffsetOf_le_six year m
  have hoffF := startOffsetOf_le_first year m
  have hb := daysInMonth_bounds year (m + 1) (by omega) (by omega)
  have hlast := lastDay_eq year m hy hm
  have hF1 := jsDate_one_pos year m
  have hget : ∀ i, i < 42 →
      (monthView year m lunarOracle provider customHolidays markedDates).getD i
          defaultDayData =
        combineDayData
          (getBaseDayData (jsDate year m 1 + i - startOffsetOf year m)
            (decide (startOffsetOf year m ≤ i ∧
              i < startOffsetOf year m + daysInMonth year (m + 1)))
            (lunarOracle (jsDate year m 1 + i - startOffsetOf year m)).1
            (lunarOracle (jsDate year m 1 + i - startOffsetOf year m)).2
            (provider (jsDate year m 1 + i - startOffsetOf year m)))
          customHolidays markedDates := by
    intro i hi
    unfold monthView
    rw [getD_map_of_lt _ _ i ((0 : Nat), false) _ (by rw [hlen]; omega), hcell i hi]
  refine ⟨?_, rfl, ?_, ?_⟩
  · unfold monthView
    rw [List.length_map, hlen]
  · intro i hi
    rw [hget i hi]
    constructor
    · rw [(combineDayData_preserves _ _ _).1]
      rfl
    · rw [(combineDayData_preserves _ _ _).2]
      show decide (startOffsetOf year m ≤ i ∧
          i < startOffsetOf year m + daysInMonth year (m + 1)) = true ↔ _
      rw [hlast, decide_eq_true_iff]
      omega
  · rw [hget (startOffsetOf year m) (by omega), (combineDayData_preserves _ _ _).1]
    show jsDate year m 1 + startOffsetOf year m - startOffsetOf year m = jsDate year m 1
    omega

/-- Witness for C2 at the concrete month February 2026 with trivial oracle
and provider. -/
theorem monthView_grid_witness :
    (monthView 2026 1 wOracle wProvider [] ∅).length = 42 ∧
    startOffsetOf 2026 1 =
      (if getDay (jsDate 2026 1 1) == 0 then 6 else getDay (jsDate 2026 1 1) - 1) ∧
    (∀ i, i < 42 →
      ((monthView 2026 1 wOracle wProvider [] ∅).getD i defaultDayData).date =
        jsDate 2026 1 1 + i - startOffsetOf 2026 1 ∧
      (((monthView 2026 1 wOracle wProvider [] ∅).getD i defaultDayData).isCurrentMonth =
          true ↔
        (jsDate 2026 1 1 ≤ jsDate 2026 1 1 + i - startOffsetOf 2026 1 ∧
         jsDate 2026 1 1 + i - startOffsetOf 2026 1 ≤ jsDate 2026 2 0))) ∧
    ((monthView 2026 1 wOracle wProvider [] ∅).getD (startOffsetOf 2026 1)
        defaultDayData).date = jsDate 2026 1 1 :=
  monthView_grid 2026 1 (by decide) (by decide) wOracle wProvider [] ∅

/-- C7: for February 2026 (whose 1st is a Sunday) the leading offset is 6,
the grid's first cell is the preceding Monday 2026-01-26, and the cell at
index 6 is 2026-02-01. -/
theorem februaryGrid2026 (lunarOracle : Nat → String × String)
    (provider : Nat → Option Holiday) (customHolidays : List CustomHoliday)
    (markedDates : Finset String) :
    startOffsetOf 2026 1 = 6 ∧
    ((monthView 2026 1 lunarOracle provider customHolidays markedDates).getD 0
        defaultDayData).date = rataDie 2026 1 26 ∧
    ((monthView 2026 1 lunarOracle provider customHolidays markedDates).getD 6
        defaultDayData).date = rataDie 2026 2 1 := by
  have hoff : startOffsetOf 2026 1 = 6 := by decide
  have hlen : (monthCells 2026 1).length = 42 := by decide
  have h0 : (monthCells 2026 1).getD 0 ((0 : Nat), false) = (rataDie 2026 1 26, false) := by
    decide
  have h6 : (monthCells 2026 1).getD 6 ((0 : Nat), false) = (rataDie 2026 2 1, true) := by
    decide
  refine ⟨hoff, ?_, ?_⟩
  · unfold monthView
    rw [getD_map_of_lt _ _ 0 ((0 : Nat), false) _ (by rw [hlen]; omega), h0,
      (combineDayData_preserves _ _ _).1]
    rfl
  · unfold monthView
    rw [getD_map_of_lt _ _ 6 ((0 : Nat), false) _ (by rw [hlen]; omega), h6,
      (combineDayData_preserves _ _ _).1]
    rfl

end Calendar
